import Mathlib

/-!
Shallow embedding of the `ranker` repository (C++ sources
`player.h`/`player.cpp` and `low_vol_ranker.h`/`low_vol_ranker.cpp`).

C++ `float` arithmetic is modelled over `ℝ`.  Fallible array indexing
(`std::vector::operator[]`, undefined behaviour out of range) is modelled
with `Option`.  Each definition mirrors one source entity; comments cite
the corresponding C++ lines.
-/

namespace Ranker

/-- `Q = log(10) / 400` from `player.h`. -/
noncomputable def Q : ℝ := Real.log 10 / 400

/-- The `Player` class state (`player.h`).  Fields `id_`, `rating_`, `rd_`,
`num_comps_`.  The C++ `id_` is an `int` initialised from the (truncated)
first constructor argument; it is never read by any member function, so we
keep the untruncated real value. -/
structure Player where
  id : ℝ
  rating : ℝ
  rd : ℝ
  numComps : ℕ

/-- The constructor `Player(int id, float rating = 0, float rd = 350)`:
initialiser list `id_{id}, rating_{rating}, rd_{rd}, num_comps_(0)`. -/
def Player.make (id rating rd : ℝ) : Player :=
  { id := id, rating := rating, rd := rd, numComps := 0 }

/-- `float get_rating() const { return rating_; }` -/
def Player.get_rating (p : Player) : ℝ := p.rating

/-- `float get_rd() const { return rd_; }` -/
def Player.get_rd (p : Player) : ℝ := p.rd

/-- `int get_num_comps() const { return num_comps_; }` -/
def Player.get_num_comps (p : Player) : ℕ := p.numComps

/-- `void Player::set_rating(float rating) { rating = rating; }` —
the body assigns the parameter to itself; the member `rating_` is
untouched, so the method leaves the object unchanged. -/
def Player.set_rating (p : Player) (rating : ℝ) : Player := p

/-- `void Player::set_rd(float rd) { rd = rd; }` — likewise a
self-assignment of the parameter; the member `rd_` is untouched. -/
def Player.set_rd (p : Player) (rd : ℝ) : Player := p

/-- `Player::get_g`: `1 / sqrt(1 + 3*Q*Q*opp_rd*opp_rd / M_PI / M_PI)`. -/
noncomputable def Player.get_g (p : Player) (opp_rd : ℝ) : ℝ :=
  1 / Real.sqrt (1 + 3 * Q * Q * opp_rd * opp_rd / Real.pi / Real.pi)

/-- `Player::get_expected_score`:
`1 / (1 + pow(10, -g * (rating_ - opp_rating) / 400))` (real power). -/
noncomputable def Player.get_expected_score (p : Player)
    (opp_rating opp_rd g : ℝ) : ℝ :=
  1 / (1 + (10 : ℝ) ^ (-g * (p.rating - opp_rating) / 400))

/-- `Player::get_d2`. -/
noncomputable def Player.get_d2 (p : Player) (opp_rating opp_rd : ℝ) : ℝ :=
  1 / (Q * Q * p.get_g opp_rd * p.get_g opp_rd *
    p.get_expected_score opp_rating opp_rd (p.get_g opp_rd) *
    (1 - p.get_expected_score opp_rating opp_rd (p.get_g opp_rd)))

/-- `Player::get_new_rating`. -/
noncomputable def Player.get_new_rating (p : Player)
    (score opp_rating opp_rd d2 : ℝ) : ℝ :=
  p.rating + Q / (1 / (p.rd * p.rd) + 1 / d2) * p.get_g opp_rd *
    (score - p.get_expected_score opp_rating opp_rd (p.get_g opp_rd))

/-- `Player::get_new_rd`: `sqrt(1 / (1 / (rd_*rd_) + 1 / d2))`. -/
noncomputable def Player.get_new_rd (p : Player) (d2 : ℝ) : ℝ :=
  Real.sqrt (1 / (1 / (p.rd * p.rd) + 1 / d2))

/-- `Player::update`: computes `d2`, `new_rating`, `new_rd`, then calls
`set_rating(new_rating); set_rd(new_rd); num_comps_++;`.  Because the two
setters are self-assignment no-ops, only `num_comps_` actually changes. -/
noncomputable def Player.update (p : Player) (score opp_rating opp_rd : ℝ) :
    Player :=
  let d2 := p.get_d2 opp_rating opp_rd
  let new_rating := p.get_new_rating score opp_rating opp_rd d2
  let new_rd := p.get_new_rd d2
  let p1 := p.set_rating new_rating
  let p2 := p1.set_rd new_rd
  { p2 with numComps := p2.numComps + 1 }

/-- `Player::compute_score_var`:
`p10 = pow(10, (rating_ - opp_rating) / 400); frac = p10 / ((1+p10)*(1+p10));
frac2 = frac*frac; return frac2 * (rd_*rd_ + opp_rd*opp_rd);`. -/
noncomputable def Player.compute_score_var (p : Player)
    (opp_rating opp_rd : ℝ) : ℝ :=
  let p10 := (10 : ℝ) ^ ((p.rating - opp_rating) / 400)
  let frac := p10 / ((1 + p10) * (1 + p10))
  let frac2 := frac * frac
  frac2 * (p.rd * p.rd + opp_rd * opp_rd)

/-- `update` leaves the stored rating unchanged (`set_rating` is a no-op). -/
theorem update_rating (p : Player) (score opp_rating opp_rd : ℝ) :
    (p.update score opp_rating opp_rd).rating = p.rating := rfl

/-- `update` leaves the stored rd unchanged (`set_rd` is a no-op). -/
theorem update_rd (p : Player) (score opp_rating opp_rd : ℝ) :
    (p.update score opp_rating opp_rd).rd = p.rd := rfl

/-- `update` increments the comparison counter. -/
theorem update_numComps (p : Player) (score opp_rating opp_rd : ℝ) :
    (p.update score opp_rating opp_rd).numComps = p.numComps + 1 := rfl

theorem Q_pos : 0 < Q := by
  unfold Q
  have h : (1 : ℝ) < 10 := by norm_num
  have := Real.log_pos h
  linarith

theorem get_g_pos (p : Player) (opp_rd : ℝ) : 0 < p.get_g opp_rd := by
  unfold Player.get_g
  have hbase : (0 : ℝ) < 1 + 3 * Q * Q * opp_rd * opp_rd / Real.pi / Real.pi := by
    have hpi := Real.pi_pos
    have hsq : (0 : ℝ) ≤ 3 * Q * Q * opp_rd * opp_rd := by
      have : 3 * Q * Q * opp_rd * opp_rd = 3 * (Q * opp_rd) ^ 2 := by ring
      rw [this]; positivity
    have : (0 : ℝ) ≤ 3 * Q * Q * opp_rd * opp_rd / Real.pi / Real.pi := by
      positivity
    linarith
  have := Real.sqrt_pos.mpr hbase
  positivity

theorem expected_score_pos (p : Player) (opp_rating opp_rd g : ℝ) :
    0 < p.get_expected_score opp_rating opp_rd g := by
  unfold Player.get_expected_score
  have h10 : (0 : ℝ) < (10 : ℝ) ^ (-g * (p.rating - opp_rating) / 400) :=
    Real.rpow_pos_of_pos (by norm_num) _
  positivity

theorem expected_score_lt_one (p : Player) (opp_rating opp_rd g : ℝ) :
    p.get_expected_score opp_rating opp_rd g < 1 := by
  unfold Player.get_expected_score
  have h10 : (0 : ℝ) < (10 : ℝ) ^ (-g * (p.rating - opp_rating) / 400) :=
    Real.rpow_pos_of_pos (by norm_num) _
  rw [div_lt_one (by linarith)]
  linarith

theorem get_d2_pos (p : Player) (opp_rating opp_rd : ℝ) :
    0 < p.get_d2 opp_rating opp_rd := by
  unfold Player.get_d2
  have hg := get_g_pos p opp_rd
  have he := expected_score_pos p opp_rating opp_rd (p.get_g opp_rd)
  have he1 := expected_score_lt_one p opp_rating opp_rd (p.get_g opp_rd)
  have hQ := Q_pos
  have h1 : (0 : ℝ) < 1 - p.get_expected_score opp_rating opp_rd (p.get_g opp_rd) := by
    linarith
  positivity

/-- If the two ratings coincide, the expected score is `1/2`
(the 10-power exponent vanishes). -/
theorem expected_score_eq_half (p : Player) (opp_rating opp_rd g : ℝ)
    (h : p.rating = opp_rating) :
    p.get_expected_score opp_rating opp_rd g = 1 / 2 := by
  unfold Player.get_expected_score
  rw [h, sub_self, mul_zero, zero_div, Real.rpow_zero]
  norm_num

/-- C1: the code contradicts the claim.  For a player with
`(rating, rd) = (0, 350)`, `update(score=1.0, opp_rating=0, opp_rd=350)`
leaves `get_rating()` at `0` and `get_rd()` at `350` — the computed
`new_rating`/`new_rd` are discarded because `set_rating`/`set_rd` assign the
parameter to itself.  The last two conjuncts show the update algorithm did
compute a strictly larger rating and a strictly smaller rd, so the failure
is exactly that these values are never committed to the stored state. -/
theorem c1_update_not_committed :
    ((Player.make 0 0 350).update 1 0 350).get_rating =
        (Player.make 0 0 350).get_rating ∧
    ((Player.make 0 0 350).update 1 0 350).get_rd =
        (Player.make 0 0 350).get_rd ∧
    (Player.make 0 0 350).get_rating <
      (Player.make 0 0 350).get_new_rating 1 0 350
        ((Player.make 0 0 350).get_d2 0 350) ∧
    (Player.make 0 0 350).get_new_rd ((Player.make 0 0 350).get_d2 0 350) <
      (Player.make 0 0 350).get_rd := by
  have hd2 : 0 < (Player.make 0 0 350).get_d2 0 350 := get_d2_pos _ _ _
  have hg : 0 < (Player.make 0 0 350).get_g 350 := get_g_pos _ _
  have hE : (Player.make 0 0 350).get_expected_score 0 350
      ((Player.make 0 0 350).get_g 350) = 1 / 2 :=
    expected_score_eq_half _ _ _ _ rfl
  have hrd : (Player.make 0 0 350).rd = 350 := rfl
  have hrat : (Player.make 0 0 350).rating = 0 := rfl
  have hdenom : (0 : ℝ) < 1 / (350 * 350) + 1 / ((Player.make 0 0 350).get_d2 0 350) := by
    have h1 : (0 : ℝ) < 1 / (350 * 350) := by norm_num
    have h2 : (0 : ℝ) < 1 / ((Player.make 0 0 350).get_d2 0 350) :=
      one_div_pos.mpr hd2
    linarith
  refine ⟨rfl, rfl, ?_, ?_⟩
  · unfold Player.get_new_rating
    rw [hE, hrd, hrat]
    have hQ := Q_pos
    have hfac : (0 : ℝ) <
        Q / (1 / (350 * 350) + 1 / ((Player.make 0 0 350).get_d2 0 350)) *
          (Player.make 0 0 350).get_g 350 * (1 - 1 / 2) := by
      have h1 : (0 : ℝ) <
          Q / (1 / (350 * 350) + 1 / ((Player.make 0 0 350).get_d2 0 350)) :=
        div_pos hQ hdenom
      have h2 : (0 : ℝ) < 1 - (1 : ℝ) / 2 := by norm_num
      positivity
    unfold Player.get_rating
    rw [hrat]
    linarith
  · unfold Player.get_new_rd Player.get_rd
    rw [hrd]
    rw [Real.sqrt_lt' (by norm_num : (0 : ℝ) < 350)]
    have key : (1 : ℝ) / (350 * 350) <
        1 / (350 * 350) + 1 / ((Player.make 0 0 350).get_d2 0 350) := by
      have := one_div_pos.mpr hd2
      linarith
    have h2 := one_div_lt_one_div_of_lt (by norm_num : (0 : ℝ) < 1 / (350 * 350)) key
    have h3 : (1 : ℝ) / (1 / (350 * 350)) = 350 ^ 2 := by norm_num
    linarith

/-- C3: the code contradicts the strict-decrease half of the claim.  After
`update(score=0.5, opp_rating=50, opp_rd=200)` — a finite, strictly positive
opponent rd — the player's rd is still exactly `350`, not strictly smaller:
`set_rd` is a self-assignment no-op, so rd never changes. -/
theorem c3_rd_never_decreases :
    ((Player.make 0 0 350).update (1 / 2) 50 200).get_rd = 350 ∧
    ¬ (((Player.make 0 0 350).update (1 / 2) 50 200).get_rd <
        (Player.make 0 0 350).get_rd) := by
  constructor
  · rfl
  · show ¬ ((350 : ℝ) < 350)
    simp

/-- `struct Comp { int id1; int id2; float score; };` -/
structure Comp where
  id1 : ℤ
  id2 : ℤ
  score : ℝ

/-- `std::vector` indexing `l[i]` with an `int` index; out of range
(including negative) is undefined behaviour, modelled as `none`. -/
def listGet (l : List Player) (i : ℤ) : Option Player :=
  if i < 0 then none else l[i.toNat]?

/-- In-place element mutation `l[i] = a`; only ever used after a successful
`listGet` bounds check on the same index. -/
def listSet (l : List Player) (i : ℤ) (a : Player) : List Player :=
  l.set i.toNat a

/-- The `LowVolRanker` class state (`low_vol_ranker.h`): `players_`,
`comps_`, `avoid_`, `avoid_twice_`.  The C++ `avoid_` is declared
`std::vector<Player>`, but the only values pushed into it are the `int`
ids of the last updated pair (implicitly converted through the `Player`
constructor) and the only use is `std::find` against a loop index, i.e.
membership of an id; we model it by the list of those ids. -/
structure LowVolRanker where
  players : List Player
  comps : List Comp
  avoid : List ℤ
  avoid_twice : Bool

/-- `LowVolRanker::LowVolRanker(bool avoid_twice)`: member containers are
default-initialised empty. -/
def LowVolRanker.init (avoid_twice : Bool) : LowVolRanker :=
  { players := [], comps := [], avoid := [], avoid_twice := avoid_twice }

/-- `LowVolRanker::addPlayer(float rating, float rd)`:
`players_.emplace_back(rating, rd)`.  The `Player` constructor is
`Player(int id, float rating = 0, float rd = 350)`, so the call resolves to
`Player(id := (int)rating, rating := rd, rd := 350)` — the first argument
lands in `id_`, the second in `rating_`, and `rd_` takes its default. -/
noncomputable def LowVolRanker.addPlayer (s : LowVolRanker)
    (rating rd : ℝ) : LowVolRanker :=
  { s with players := s.players ++ [Player.make rating rd 350] }

/-- Loop body of `LowVolRanker::get_best_player`:
iterates `i` over the players, tracking `max_id` (init `-1`) and `max_rd`
(init `0`); takes `i` whenever
`players_[i].get_rd() > max_rd && std::find(avoid_, i) == end`. -/
noncomputable def bestPlayerAux (avoid : List ℤ) :
    List Player → ℕ → ℤ → ℝ → ℤ
  | [], _, max_id, _ => max_id
  | p :: ps, i, max_id, max_rd =>
    if p.get_rd > max_rd ∧ ¬ ((i : ℤ) ∈ avoid) then
      bestPlayerAux avoid ps (i + 1) (i : ℤ) p.get_rd
    else
      bestPlayerAux avoid ps (i + 1) max_id max_rd

/-- `int LowVolRanker::get_best_player() const`. -/
noncomputable def LowVolRanker.get_best_player (s : LowVolRanker) : ℤ :=
  bestPlayerAux s.avoid s.players 0 (-1) 0

/-- Loop body of `LowVolRanker::get_best_opp(int id)`: iterates `i`,
tracking `max_id` (init `-1`) and `max_var` (init `0`); whenever
`i != id && std::find(avoid_, i) == end` it evaluates
`players_[id].compute_score_var(players_[i]...)` — an out-of-bounds access
(`none`) when `id` is not a valid index — and takes `i` when the variance
strictly exceeds `max_var`.  The C++ comparison `i != id` is between
`size_t` and `int`; for `id = -1` it is always true, which the integer
inequality also gives since `i ≥ 0`. -/
noncomputable def bestOppAux (players : List Player) (avoid : List ℤ)
    (id : ℤ) : List Player → ℕ → ℤ → ℝ → Option ℤ
  | [], _, max_id, _ => some max_id
  | p :: ps, i, max_id, max_var =>
    if (i : ℤ) ≠ id ∧ ¬ ((i : ℤ) ∈ avoid) then
      match listGet players id with
      | none => none
      | some q =>
        let var := q.compute_score_var p.get_rating p.get_rd
        if var > max_var then bestOppAux players avoid id ps (i + 1) (i : ℤ) var
        else bestOppAux players avoid id ps (i + 1) max_id max_var
    else bestOppAux players avoid id ps (i + 1) max_id max_var

/-- `int LowVolRanker::get_best_opp(int id) const`. -/
noncomputable def LowVolRanker.get_best_opp (s : LowVolRanker) (id : ℤ) :
    Option ℤ :=
  bestOppAux s.players s.avoid id s.players 0 (-1) 0

/-- `std::pair<int, int> LowVolRanker::get_next_comp() const`:
`id1 = get_best_player(); id2 = get_best_opp(id1); return {id1, id2};`. -/
noncomputable def LowVolRanker.get_next_comp (s : LowVolRanker) :
    Option (ℤ × ℤ) :=
  let id1 := s.get_best_player
  match s.get_best_opp id1 with
  | none => none
  | some id2 => some (id1, id2)

/-- One statement `players_[a].update(sc, players_[b].get_rating(),
players_[b].get_rd());` — both subscripts must be in range. -/
noncomputable def updStep (players : List Player) (a b : ℤ) (sc : ℝ) :
    Option (List Player) :=
  match listGet players a, listGet players b with
  | some pa, some pb =>
      some (listSet players a (pa.update sc pb.get_rating pb.get_rd))
  | _, _ => none

/-- `void LowVolRanker::receive_comp(int id1, int id2, float score, bool
update)`: unconditionally appends `(id1, id2, score)` to `comps_`; if
`update` is set, runs the two update statements in order (the second reads
`players_[id1]` after the first statement has executed) and, if
`avoid_twice_`, clears `avoid_` and pushes `id1`, `id2`. -/
noncomputable def LowVolRanker.receive_comp (s : LowVolRanker)
    (id1 id2 : ℤ) (score : ℝ) (update : Bool) : Option LowVolRanker :=
  let s1 : LowVolRanker := { s with comps := s.comps ++ [Comp.mk id1 id2 score] }
  if update then
    match updStep s1.players id1 id2 score with
    | none => none
    | some ps2 =>
      match updStep ps2 id2 id1 (1 - score) with
      | none => none
      | some ps3 =>
        let s2 : LowVolRanker := { s1 with players := ps3 }
        some (if s.avoid_twice then { s2 with avoid := [id1, id2] } else s2)
  else some s1

/-- `void LowVolRanker::adjust_ratings()` — body is a TODO comment. -/
def LowVolRanker.adjust_ratings (s : LowVolRanker) : LowVolRanker := s

/-- `void LowVolRanker::dump_ratings(std::string) const` — body is a TODO
comment; `const`, so no state change. -/
def LowVolRanker.dump_ratings (s : LowVolRanker) : LowVolRanker := s

/-- The mutating public calls a client can make on a `LowVolRanker`. -/
inductive Op where
  | addPlayer (rating rd : ℝ)
  | receiveComp (id1 id2 : ℤ) (score : ℝ) (update : Bool)
  | adjustRatings
  | dumpRatings

/-- Effect of one public call. -/
noncomputable def applyOp (s : LowVolRanker) : Op → Option LowVolRanker
  | .addPlayer r d => some (s.addPlayer r d)
  | .receiveComp i j sc u => s.receive_comp i j sc u
  | .adjustRatings => some s.adjust_ratings
  | .dumpRatings => some s.dump_ratings

/-- Running a sequence of calls (failing if any call hits undefined
behaviour). -/
noncomputable def exec (s : LowVolRanker) : List Op → Option LowVolRanker
  | [] => some s
  | op :: ops =>
    match applyOp s op with
    | none => none
    | some s' => exec s' ops

/-- States of a `LowVolRanker` object: produced from the constructor by
some sequence of public calls, none of which hit undefined behaviour. -/
def Reachable (s : LowVolRanker) : Prop :=
  ∃ (b : Bool) (ops : List Op), exec (LowVolRanker.init b) ops = some s

/-- C2: the code contradicts the claim already at the default arguments.
After `addPlayer(0, 350)` on a fresh ranker, the new player's
`get_rating()` is `350`, not the supplied rating `0` (and in general
`get_rd()` is always `350`, not the supplied rd): `emplace_back(rating, rd)`
resolves against `Player(int id, float rating = 0, float rd = 350)`, so the
rating argument is consumed as the id and the rd argument as the rating.
The second group shows a generic failing input `addPlayer(7, 100)` where
both getters disagree with the claim. -/
theorem c2_addPlayer_misroutes_arguments :
    (Option.map Player.get_rating
        (((LowVolRanker.init true).addPlayer 0 350).players[0]?) = some 350 ∧
      (350 : ℝ) ≠ 0) ∧
    (Option.map Player.get_rating
        (((LowVolRanker.init true).addPlayer 7 100).players[0]?) = some 100 ∧
      (100 : ℝ) ≠ 7 ∧
      Option.map Player.get_rd
        (((LowVolRanker.init true).addPlayer 7 100).players[0]?) = some 350 ∧
      (350 : ℝ) ≠ 100) := by
  refine ⟨⟨rfl, by norm_num⟩, rfl, by norm_num, rfl, by norm_num⟩

theorem listGet_mem {l : List Player} {i : ℤ} {p : Player}
    (h : listGet l i = some p) : p ∈ l := by
  unfold listGet at h
  split at h
  · exact absurd h (by simp)
  · exact List.getElem?_mem h

/-- All players ever stored have `rd_ = 350`: `addPlayer` always passes the
default `350` (see `Player.make` routing) and `update` never writes `rd_`. -/
def InvRD (s : LowVolRanker) : Prop := ∀ p ∈ s.players, p.rd = 350

theorem updStep_invRD {players ps' : List Player} {a b : ℤ} {sc : ℝ}
    (h : updStep players a b sc = some ps')
    (hinv : ∀ p ∈ players, p.rd = 350) : ∀ p ∈ ps', p.rd = 350 := by
  unfold updStep at h
  cases ha : listGet players a with
  | none => rw [ha] at h; exact absurd h (by simp)
  | some pa =>
    cases hb : listGet players b with
    | none => rw [ha, hb] at h; exact absurd h (by simp)
    | some pb =>
      rw [ha, hb] at h
      have hps' : ps' = listSet players a (pa.update sc pb.get_rating pb.get_rd) := by
        injection h with h'; exact h'.symm
      intro p hp
      rw [hps'] at hp
      rcases List.mem_or_eq_of_mem_set hp with hmem | heq
      · exact hinv p hmem
      · rw [heq, update_rd]
        exact hinv pa (listGet_mem ha)

theorem applyOp_invRD {s s' : LowVolRanker} {op : Op}
    (h : applyOp s op = some s') (hinv : InvRD s) : InvRD s' := by
  cases op with
  | addPlayer r d =>
    simp only [applyOp] at h
    injection h with h'
    intro p hp
    rw [← h'] at hp
    simp only [LowVolRanker.addPlayer, List.mem_append, List.mem_singleton] at hp
    rcases hp with hp | hp
    · exact hinv p hp
    · rw [hp]; rfl
  | receiveComp i j sc u =>
    simp only [applyOp, LowVolRanker.receive_comp] at h
    by_cases hu : u = true
    · rw [hu, if_pos rfl] at h
      cases h1 : updStep s.players i j sc with
      | none => rw [h1] at h; exact absurd h (by simp)
      | some ps2 =>
        rw [h1] at h
        dsimp only at h
        cases h2 : updStep ps2 j i (1 - sc) with
        | none => rw [h2] at h; exact absurd h (by simp)
        | some ps3 =>
          rw [h2] at h
          have hps3 : ∀ p ∈ ps3, p.rd = 350 :=
            updStep_invRD h2 (updStep_invRD h1 hinv)
          injection h with h'
          rw [← h']
          intro p hp
          by_cases hav : s.avoid_twice <;> simp [hav] at hp <;> exact hps3 p hp
    · rw [if_neg (by simpa using hu)] at h
      injection h with h'
      intro p hp
      rw [← h'] at hp
      exact hinv p hp
  | adjustRatings =>
    simp only [applyOp, LowVolRanker.adjust_ratings] at h
    injection h with h'; rw [← h']; exact hinv
  | dumpRatings =>
    simp only [applyOp, LowVolRanker.dump_ratings] at h
    injection h with h'; rw [← h']; exact hinv

/-- Any invariant preserved by every successful call is preserved by every
successful call sequence. -/
theorem exec_inv (P : LowVolRanker → Prop)
    (hstep : ∀ s op s', applyOp s op = some s' → P s → P s') :
    ∀ (ops : List Op) (s s' : LowVolRanker),
      exec s ops = some s' → P s → P s' := by
  intro ops
  induction ops with
  | nil => intro s s' h hP; simp only [exec] at h; injection h with h'; rwa [← h']
  | cons op ops ih =>
    intro s s' h hP
    simp only [exec] at h
    cases hop : applyOp s op with
    | none => rw [hop] at h; exact absurd h (by simp)
    | some t => rw [hop] at h; exact ih t s' h (hstep s op t hop hP)

theorem reachable_invRD {s : LowVolRanker} (h : Reachable s) : InvRD s := by
  obtain ⟨b, ops, hexec⟩ := h
  exact exec_inv InvRD (fun s op s' h hP => applyOp_invRD h hP) ops _ s hexec
    (by intro p hp; simp [LowVolRanker.init] at hp)

theorem exec_append_split {l1 l2 : List Op} {s s'' : LowVolRanker}
    (h : exec s (l1 ++ l2) = some s'') :
    ∃ s', exec s l1 = some s' ∧ exec s' l2 = some s'' := by
  induction l1 generalizing s with
  | nil => exact ⟨s, rfl, h⟩
  | cons op ops ih =>
    simp only [List.cons_append, exec] at h ⊢
    cases hop : applyOp s op with
    | none => rw [hop] at h; exact absurd h (by simp)
    | some t => rw [hop] at h; exact ih h

/-- Generic form of the two greedy selection loops in
`low_vol_ranker.cpp`: scan a list with a running best id (init `-1`) and
best value (init `0`); an element at overall index `i` replaces the best
when it is admissible (`E i`) and its value strictly exceeds the running
best.  `get_best_player` instantiates `E`/`v` with the avoid-set test and
`get_rd`; `get_best_opp` with the avoid-set plus `i != id` test and
`compute_score_var`. -/
noncomputable def selLoop (E : ℕ → Prop) [DecidablePred E] (v : Player → ℝ) :
    List Player → ℕ → ℤ → ℝ → ℤ
  | [], _, max_id, _ => max_id
  | p :: ps, i, max_id, max_v =>
    if E i ∧ v p > max_v then selLoop E v ps (i + 1) (i : ℤ) (v p)
    else selLoop E v ps (i + 1) max_id max_v

theorem sel_le (E : ℕ → Prop) [DecidablePred E] (v : Player → ℝ) :
    ∀ (ps : List Player) (k : ℕ) (mid : ℤ) (mv : ℝ),
      (∀ rel p, ps[rel]? = some p → E (k + rel) → v p ≤ mv) →
      selLoop E v ps k mid mv = mid := by
  intro ps
  induction ps with
  | nil => intro k mid mv _; rfl
  | cons p tl ih =>
    intro k mid mv hle
    rw [selLoop]
    have hnp : ¬ (E k ∧ v p > mv) := by
      rintro ⟨hE, hv⟩
      exact absurd hv (not_lt.mpr (hle 0 p (by simp) (by simpa using hE)))
    rw [if_neg hnp]
    apply ih
    intro rel p' hget hE
    exact hle (rel + 1) p' (by simpa using hget)
      (by have : k + (rel + 1) = k + 1 + rel := by omega
          rw [this]; exact hE)

theorem sel_max (E : ℕ → Prop) [DecidablePred E] (v : Player → ℝ) :
    ∀ (ps : List Player) (k : ℕ) (mid : ℤ) (mv : ℝ),
      (∃ rel p, ps[rel]? = some p ∧ E (k + rel) ∧ v p > mv) →
      ∃ jrel pj, ps[jrel]? = some pj ∧ E (k + jrel) ∧ v pj > mv ∧
        selLoop E v ps k mid mv = ((k + jrel : ℕ) : ℤ) ∧
        (∀ rel p, ps[rel]? = some p → E (k + rel) → v p ≤ v pj) ∧
        (∀ rel p, ps[rel]? = some p → E (k + rel) → rel < jrel → v p < v pj) := by
  intro ps
  induction ps with
  | nil =>
    rintro k mid mv ⟨rel, p, hget, -, -⟩
    simp at hget
  | cons p tl ih =>
    rintro k mid mv hex
    rw [selLoop]
    by_cases hc : E k ∧ v p > mv
    · rw [if_pos hc]
      by_cases hex' : ∃ rel p', tl[rel]? = some p' ∧ E (k + 1 + rel) ∧ v p' > v p
      · obtain ⟨jrel', pj, h1, h2, h3, h4, h5, h6⟩ := ih (k + 1) (k : ℤ) (v p) hex'
        have hidx : k + (jrel' + 1) = k + 1 + jrel' := by omega
        refine ⟨jrel' + 1, pj, by simpa using h1, by rw [hidx]; exact h2,
          lt_trans hc.2 h3, by rw [h4]; congr 1; omega, ?_, ?_⟩
        · intro rel p' hget hE
          cases rel with
          | zero =>
            simp only [List.getElem?_cons_zero, Option.some.injEq] at hget
            rw [← hget]
            exact le_of_lt h3
          | succ r =>
            refine h5 r p' (by simpa using hget) ?_
            have : k + 1 + r = k + (r + 1) := by omega
            rw [this]; exact hE
        · intro rel p' hget hE hlt
          cases rel with
          | zero =>
            simp only [List.getElem?_cons_zero, Option.some.injEq] at hget
            rw [← hget]
            exact h3
          | succ r =>
            refine h6 r p' (by simpa using hget) ?_ (by omega)
            have : k + 1 + r = k + (r + 1) := by omega
            rw [this]; exact hE
      · push_neg at hex'
        have hres := sel_le E v tl (k + 1) (k : ℤ) (v p)
          (fun rel p' hget hE => hex' rel p' hget hE)
        refine ⟨0, p, by simp, by simpa using hc.1, hc.2,
          by rw [hres]; norm_num, ?_, ?_⟩
        · intro rel p' hget hE
          cases rel with
          | zero =>
            simp only [List.getElem?_cons_zero, Option.some.injEq] at hget
            rw [← hget]
          | succ r =>
            refine hex' r p' (by simpa using hget) ?_
            have : k + 1 + r = k + (r + 1) := by omega
            rw [this]; exact hE
        · intro rel p' hget hE hlt
          omega
    · rw [if_neg hc]
      obtain ⟨rel, pw, hget, hE, hgt⟩ := hex
      have hrel : ∃ r, rel = r + 1 := by
        cases rel with
        | zero =>
          exfalso
          simp only [List.getElem?_cons_zero, Option.some.injEq] at hget
          exact hc ⟨by simpa using hE, by rw [hget]; exact hgt⟩
        | succ r => exact ⟨r, rfl⟩
      obtain ⟨r, rfl⟩ := hrel
      have hex' : ∃ rel p', tl[rel]? = some p' ∧ E (k + 1 + rel) ∧ v p' > mv := by
        refine ⟨r, pw, by simpa using hget, ?_, hgt⟩
        have : k + 1 + r = k + (r + 1) := by omega
        rw [this]; exact hE
      obtain ⟨jrel', pj, h1, h2, h3, h4, h5, h6⟩ := ih (k + 1) mid mv hex'
      have hidx : k + (jrel' + 1) = k + 1 + jrel' := by omega
      refine ⟨jrel' + 1, pj, by simpa using h1, by rw [hidx]; exact h2, h3,
        by rw [h4]; congr 1; omega, ?_, ?_⟩
      · intro rel p' hget' hE'
        cases rel with
        | zero =>
          simp only [List.getElem?_cons_zero, Option.some.injEq] at hget'
          rw [← hget']
          have hEk : E k := by simpa using hE'
          have : ¬ (v p > mv) := fun hv => hc ⟨hEk, hv⟩
          exact le_of_lt (lt_of_le_of_lt (not_lt.mp this) h3)
        | succ r' =>
          refine h5 r' p' (by simpa using hget') ?_
          have : k + 1 + r' = k + (r' + 1) := by omega
          rw [this]; exact hE'
      · intro rel p' hget' hE' hlt
        cases rel with
        | zero =>
          simp only [List.getElem?_cons_zero, Option.some.injEq] at hget'
          rw [← hget']
          have hEk : E k := by simpa using hE'
          have : ¬ (v p > mv) := fun hv => hc ⟨hEk, hv⟩
          exact lt_of_le_of_lt (not_lt.mp this) h3
        | succ r' =>
          refine h6 r' p' (by simpa using hget') ?_ (by omega)
          have : k + 1 + r' = k + (r' + 1) := by omega
          rw [this]; exact hE'

/-- `get_best_player`'s loop is the generic loop with admissibility
"not in the avoid-set" and value `get_rd` (the source writes the two
conjuncts of the guard in the other order). -/
theorem bestPlayerAux_eq_selLoop (avoid : List ℤ) :
    ∀ (ps : List Player) (k : ℕ) (mid : ℤ) (mv : ℝ),
      bestPlayerAux avoid ps k mid mv =
        selLoop (fun i => ¬ ((i : ℤ) ∈ avoid)) Player.get_rd ps k mid mv := by
  intro ps
  induction ps with
  | nil => intro k mid mv; rfl
  | cons p tl ih =>
    intro k mid mv
    rw [bestPlayerAux, selLoop]
    by_cases h1 : (k : ℤ) ∈ avoid
    · rw [if_neg (by tauto), if_neg (by tauto)]
      exact ih (k + 1) mid mv
    · by_cases h2 : p.get_rd > mv
      · rw [if_pos ⟨h2, h1⟩, if_pos ⟨h1, h2⟩]
        exact ih (k + 1) (k : ℤ) p.get_rd
      · rw [if_neg (by tauto), if_neg (by tauto)]
        exact ih (k + 1) mid mv

/-- When `players_[id]` is a valid access, `get_best_opp`'s loop is the
generic loop with admissibility `i != id` and "not in the avoid-set", and
value `compute_score_var` on `id`'s model. -/
theorem bestOppAux_eq_selLoop (players : List Player) (avoid : List ℤ)
    (id : ℤ) (q : Player) (hq : listGet players id = some q) :
    ∀ (ps : List Player) (k : ℕ) (mid : ℤ) (mv : ℝ),
      bestOppAux players avoid id ps k mid mv =
        some (selLoop (fun i => (i : ℤ) ≠ id ∧ ¬ ((i : ℤ) ∈ avoid))
          (fun p => q.compute_score_var p.get_rating p.get_rd) ps k mid mv) := by
  intro ps
  induction ps with
  | nil => intro k mid mv; rfl
  | cons p tl ih =>
    intro k mid mv
    rw [bestOppAux, selLoop, hq]
    by_cases h1 : (k : ℤ) ≠ id ∧ ¬ ((k : ℤ) ∈ avoid)
    · rw [if_pos h1]
      dsimp only
      by_cases h2 : q.compute_score_var p.get_rating p.get_rd > mv
      · rw [if_pos h2, if_pos ⟨h1, h2⟩]
        exact ih (k + 1) (k : ℤ) _
      · rw [if_neg h2, if_neg (fun hcon => h2 hcon.2)]
        exact ih (k + 1) mid mv
    · rw [if_neg h1, if_neg (fun hcon => h1 hcon.1)]
      exact ih (k + 1) mid mv

/-- If no index in the scanned range passes the guard, `get_best_opp`'s
loop never touches `players_[id]` and returns the accumulator. -/
theorem bestOppAux_no_candidate (players : List Player) (avoid : List ℤ)
    (id : ℤ) :
    ∀ (ps : List Player) (k : ℕ) (mid : ℤ) (mv : ℝ),
      (∀ rel : ℕ, rel < ps.length →
        ¬ (((k + rel : ℕ) : ℤ) ≠ id ∧ ¬ (((k + rel : ℕ) : ℤ) ∈ avoid))) →
      bestOppAux players avoid id ps k mid mv = some mid := by
  intro ps
  induction ps with
  | nil => intro k mid mv _; rfl
  | cons p tl ih =>
    intro k mid mv hno
    rw [bestOppAux]
    have h0 := hno 0 (by simp)
    rw [if_neg (by simpa using h0)]
    apply ih
    intro rel hrel
    have := hno (rel + 1) (by simpa using Nat.succ_lt_succ hrel)
    have hidx : k + (rel + 1) = k + 1 + rel := by omega
    rwa [hidx] at this

theorem listGet_some {l : List Player} {i : ℤ} {p : Player}
    (h : listGet l i = some p) : 0 ≤ i ∧ l[i.toNat]? = some p := by
  unfold listGet at h
  split at h
  · exact absurd h (by simp)
  · exact ⟨by omega, h⟩

theorem listGet_of_lt {l : List Player} {i : ℕ} (h : i < l.length) :
    listGet l (i : ℤ) = l[i]? := by
  unfold listGet
  rw [if_neg (by omega)]
  norm_num

theorem listSet_length (l : List Player) (i : ℤ) (a : Player) :
    (listSet l i a).length = l.length := by
  unfold listSet; exact List.length_set l _ _

theorem listGet_set_self {l : List Player} {i : ℤ} {a : Player}
    (h0 : 0 ≤ i) (h : i.toNat < l.length) :
    listGet (listSet l i a) i = some a := by
  unfold listGet listSet
  rw [if_neg (by omega)]
  exact List.getElem?_set_eq_of_lt a h

theorem listGet_set_ne {l : List Player} {i j : ℤ} {a : Player}
    (hi : 0 ≤ i) (hne : i ≠ j) :
    listGet (listSet l i a) j = listGet l j := by
  unfold listGet listSet
  by_cases hj : j < 0
  · rw [if_pos hj, if_pos hj]
  · rw [if_neg hj, if_neg hj]
    exact List.getElem?_set_ne (by omega)

/-- The selection proxy variance is strictly positive whenever the first
player's stored rd is the invariant `350`. -/
theorem score_var_pos (q : Player) (opp_rating opp_rd : ℝ)
    (hq : q.rd = 350) :
    0 < q.compute_score_var opp_rating opp_rd := by
  unfold Player.compute_score_var
  have hp10 : (0 : ℝ) < (10 : ℝ) ^ ((q.rating - opp_rating) / 400) :=
    Real.rpow_pos_of_pos (by norm_num) _
  have hfrac : (0 : ℝ) <
      (10 : ℝ) ^ ((q.rating - opp_rating) / 400) /
        ((1 + (10 : ℝ) ^ ((q.rating - opp_rating) / 400)) *
          (1 + (10 : ℝ) ^ ((q.rating - opp_rating) / 400))) := by
    positivity
  have hsum : (0 : ℝ) < q.rd * q.rd + opp_rd * opp_rd := by
    rw [hq]
    nlinarith [mul_self_nonneg opp_rd]
  positivity

/-- An entity is eligible for selection: present in the collection and not
excluded by the avoid-set. -/
def eligible (s : LowVolRanker) (i : ℕ) : Prop :=
  i < s.players.length ∧ ¬ ((i : ℤ) ∈ s.avoid)

/-- An entity is an eligible opponent for first pick `id1`: present, not
the first pick, and not excluded by the avoid-set. -/
def oppEligible (s : LowVolRanker) (id1 : ℕ) (i : ℕ) : Prop :=
  i < s.players.length ∧ (i : ℤ) ≠ (id1 : ℤ) ∧ ¬ ((i : ℤ) ∈ s.avoid)

theorem getElem?_lt {l : List Player} {i : ℕ} {p : Player}
    (h : l[i]? = some p) : i < l.length := by
  by_contra hge
  rw [List.getElem?_eq_none (by omega)] at h
  exact absurd h (by simp)

theorem get_next_comp_eq {s : LowVolRanker} {id2 : ℤ}
    (h : s.get_best_opp s.get_best_player = some id2) :
    s.get_next_comp = some (s.get_best_player, id2) := by
  unfold LowVolRanker.get_next_comp
  dsimp only
  rw [h]

theorem get_next_comp_fst {s : LowVolRanker} {pr : ℤ × ℤ}
    (h : s.get_next_comp = some pr) : pr.1 = s.get_best_player := by
  unfold LowVolRanker.get_next_comp at h
  dsimp only at h
  cases hopp : s.get_best_opp s.get_best_player with
  | none => rw [hopp] at h; exact absurd h (by simp)
  | some id2 =>
    rw [hopp] at h
    injection h with h'
    rw [← h']

theorem get_next_comp_snd {s : LowVolRanker} {pr : ℤ × ℤ}
    (h : s.get_next_comp = some pr) :
    s.get_best_opp s.get_best_player = some pr.2 := by
  unfold LowVolRanker.get_next_comp at h
  dsimp only at h
  cases hopp : s.get_best_opp s.get_best_player with
  | none => rw [hopp] at h; exact absurd h (by simp)
  | some id2 =>
    rw [hopp] at h
    injection h with h'
    rw [← h']

/-- With no eligible entity, `get_best_player` returns the sentinel. -/
theorem gbp_no_eligible (s : LowVolRanker)
    (hne : ¬ ∃ i, eligible s i) : s.get_best_player = -1 := by
  unfold LowVolRanker.get_best_player
  rw [bestPlayerAux_eq_selLoop]
  apply sel_le
  intro rel p hget hE
  exact absurd ⟨rel, getElem?_lt hget, by simpa using hE⟩ hne

/-- With some eligible entity, `get_best_player` returns the
first-encountered eligible index of maximal rd. -/
theorem gbp_eligible (s : LowVolRanker) (hinv : InvRD s) {i0 : ℕ}
    (h0 : eligible s i0) :
    ∃ (j : ℕ) (pj : Player), s.players[j]? = some pj ∧ eligible s j ∧
      s.get_best_player = (j : ℤ) ∧
      (∀ i p, s.players[i]? = some p → eligible s i →
        p.get_rd ≤ pj.get_rd) ∧
      (∀ i p, s.players[i]? = some p → eligible s i → i < j →
        p.get_rd < pj.get_rd) := by
  obtain ⟨hi0lt, hi0av⟩ := h0
  obtain ⟨p0, hp0⟩ : ∃ p0, s.players[i0]? = some p0 :=
    ⟨s.players[i0], List.getElem?_eq_getElem hi0lt⟩
  have hp0rd : p0.rd = 350 := hinv p0 (List.getElem?_mem hp0)
  have hex : ∃ rel p, s.players[rel]? = some p ∧
      ¬ (((0 + rel : ℕ) : ℤ) ∈ s.avoid) ∧ p.get_rd > 0 :=
    ⟨i0, p0, hp0, by simpa using hi0av,
      by unfold Player.get_rd; rw [hp0rd]; norm_num⟩
  obtain ⟨jrel, pj, h1, h2, h3, h4, h5, h6⟩ :=
    sel_max (fun i => ¬ ((i : ℤ) ∈ s.avoid)) Player.get_rd
      s.players 0 (-1) 0 hex
  refine ⟨jrel, pj, h1, ⟨getElem?_lt h1, by simpa using h2⟩, ?_, ?_, ?_⟩
  · unfold LowVolRanker.get_best_player
    rw [bestPlayerAux_eq_selLoop, h4]
    norm_num
  · intro i p hget hel
    exact h5 i p hget (by simpa using hel.2)
  · intro i p hget hel hij
    exact h6 i p hget (by simpa using hel.2) hij

/-- If no index passes the opponent guard, `get_best_opp` returns the
sentinel without touching `players_[id]`. -/
theorem gbo_no_candidate (s : LowVolRanker) (id : ℤ)
    (hno : ∀ rel : ℕ, rel < s.players.length →
      ¬ ((rel : ℤ) ≠ id ∧ ¬ ((rel : ℤ) ∈ s.avoid))) :
    s.get_best_opp id = some (-1) := by
  unfold LowVolRanker.get_best_opp
  apply bestOppAux_no_candidate
  intro rel hrel
  simpa using hno rel hrel

/-- With a valid first pick and some eligible opponent, `get_best_opp`
returns the first-encountered eligible opponent of maximal proxy
variance. -/
theorem gbo_candidate (s : LowVolRanker) (hinv : InvRD s) (id1 : ℕ)
    (q : Player) (hq : s.players[id1]? = some q) {c0 : ℕ}
    (hc0 : oppEligible s id1 c0) :
    ∃ (j : ℕ) (pj : Player), s.players[j]? = some pj ∧
      oppEligible s id1 j ∧
      s.get_best_opp (id1 : ℤ) = some (j : ℤ) ∧
      (∀ i p, s.players[i]? = some p → oppEligible s id1 i →
        q.compute_score_var p.get_rating p.get_rd ≤
          q.compute_score_var pj.get_rating pj.get_rd) ∧
      (∀ i p, s.players[i]? = some p → oppEligible s id1 i → i < j →
        q.compute_score_var p.get_rating p.get_rd <
          q.compute_score_var pj.get_rating pj.get_rd) := by
  have hq' : listGet s.players (id1 : ℤ) = some q := by
    rw [listGet_of_lt (getElem?_lt hq)]; exact hq
  have hqrd : q.rd = 350 := hinv q (List.getElem?_mem hq)
  obtain ⟨hc0lt, hc0ne, hc0av⟩ := hc0
  obtain ⟨pc0, hpc0⟩ : ∃ pc0, s.players[c0]? = some pc0 :=
    ⟨s.players[c0], List.getElem?_eq_getElem hc0lt⟩
  have hex : ∃ rel p, s.players[rel]? = some p ∧
      ((((0 + rel : ℕ) : ℤ) ≠ (id1 : ℤ)) ∧
        ¬ (((0 + rel : ℕ) : ℤ) ∈ s.avoid)) ∧
      q.compute_score_var p.get_rating p.get_rd > 0 :=
    ⟨c0, pc0, hpc0, ⟨by simpa using hc0ne, by simpa using hc0av⟩,
      score_var_pos q _ _ hqrd⟩
  obtain ⟨jrel, pj, h1, h2, h3, h4, h5, h6⟩ :=
    sel_max (fun i => (i : ℤ) ≠ (id1 : ℤ) ∧ ¬ ((i : ℤ) ∈ s.avoid))
      (fun p => q.compute_score_var p.get_rating p.get_rd)
      s.players 0 (-1) 0 hex
  refine ⟨jrel, pj, h1,
    ⟨getElem?_lt h1, by simpa using h2.1, by simpa using h2.2⟩, ?_, ?_, ?_⟩
  · unfold LowVolRanker.get_best_opp
    rw [bestOppAux_eq_selLoop s.players s.avoid (id1 : ℤ) q hq', h4]
    norm_num
  · intro i p hget hel
    exact h5 i p hget ⟨by simpa using hel.2.1, by simpa using hel.2.2⟩
  · intro i p hget hel hij
    exact h6 i p hget ⟨by simpa using hel.2.1, by simpa using hel.2.2⟩ hij

/-- C5 (confirmed): the first slot of `get_next_comp` is
`get_best_player`, which — for a reachable ranker — is an eligible entity
of maximal rd among the eligible ones, ties broken in favour of the
first-encountered index (every earlier eligible entity has strictly
smaller rd, so a later entity tied with the running maximum never replaces
the incumbent); if no entity is eligible it is the sentinel `-1`. -/
theorem c5_first_slot_highest_rd (s : LowVolRanker) (h : Reachable s) :
    (∀ pr : ℤ × ℤ, s.get_next_comp = some pr → pr.1 = s.get_best_player) ∧
    ((¬ ∃ i, eligible s i) → s.get_best_player = -1) ∧
    (∀ i0, eligible s i0 →
      ∃ (j : ℕ) (pj : Player), s.players[j]? = some pj ∧ eligible s j ∧
        s.get_best_player = (j : ℤ) ∧
        (∀ i p, s.players[i]? = some p → eligible s i →
          p.get_rd ≤ pj.get_rd) ∧
        (∀ i p, s.players[i]? = some p → eligible s i → i < j →
          p.get_rd < pj.get_rd)) := by
  have hinv := reachable_invRD h
  exact ⟨fun pr hpr => get_next_comp_fst hpr,
    gbp_no_eligible s,
    fun i0 h0 => gbp_eligible s hinv h0⟩

/-- C4 (confirmed): on every reachable state `get_next_comp` returns
normally (never the undefined-behaviour case `none`, i.e. no out-of-bounds
access to `players_`), and a slot carries the sentinel `-1` exactly when
fewer than two entities are eligible: the first slot iff no entity is
eligible, the second iff there are not two distinct eligible entities. -/
theorem c4_get_next_comp_total (s : LowVolRanker) (h : Reachable s) :
    ∃ i1 i2 : ℤ, s.get_next_comp = some (i1, i2) ∧
      (i1 = -1 ↔ ¬ ∃ i, eligible s i) ∧
      (i2 = -1 ↔ ¬ ∃ i j, i ≠ j ∧ eligible s i ∧ eligible s j) := by
  have hinv := reachable_invRD h
  by_cases hel : ∃ i, eligible s i
  · obtain ⟨i0, h0⟩ := hel
    obtain ⟨j, pj, hj1, hj2, hj3, hj4, hj5⟩ := gbp_eligible s hinv h0
    by_cases htwo : ∃ a b, a ≠ b ∧ eligible s a ∧ eligible s b
    · obtain ⟨a, b, hab, ha, hb⟩ := htwo
      have hc : ∃ c, oppEligible s j c := by
        by_cases haj : a = j
        · refine ⟨b, hb.1, ?_, hb.2⟩
          have : b ≠ j := fun hbj => hab (by rw [haj, hbj])
          exact_mod_cast fun hcast => this (by exact_mod_cast hcast)
        · refine ⟨a, ha.1, ?_, ha.2⟩
          exact_mod_cast fun hcast => haj (by exact_mod_cast hcast)
      obtain ⟨c, hc⟩ := hc
      obtain ⟨j2, pj2, hk1, hk2, hk3, hk4, hk5⟩ :=
        gbo_candidate s hinv j pj hj1 hc
      rw [← hj3] at hk3
      refine ⟨(j : ℤ), (j2 : ℤ), by rw [← hj3]; exact get_next_comp_eq hk3,
        ?_, ?_⟩
      · constructor
        · intro hcast; exact absurd hcast (by omega)
        · intro hno; exact absurd ⟨i0, h0⟩ hno
      · constructor
        · intro hcast; exact absurd hcast (by omega)
        · intro hno; exact absurd ⟨a, b, hab, ha, hb⟩ hno
    · have hopp : s.get_best_opp s.get_best_player = some (-1) := by
        rw [hj3]
        apply gbo_no_candidate
        intro rel hrel hcond
        refine htwo ⟨rel, j, ?_, ⟨hrel, hcond.2⟩, hj2⟩
        intro hrj
        exact hcond.1 (by rw [hrj])
      refine ⟨(j : ℤ), -1, by rw [← hj3]; exact get_next_comp_eq hopp,
        ?_, ?_⟩
      · constructor
        · intro hcast; exact absurd hcast (by omega)
        · intro hno; exact absurd ⟨i0, h0⟩ hno
      · exact ⟨fun _ => htwo, fun _ => rfl⟩
  · have hbp : s.get_best_player = -1 := gbp_no_eligible s hel
    have hopp : s.get_best_opp s.get_best_player = some (-1) := by
      rw [hbp]
      apply gbo_no_candidate
      intro rel hrel hcond
      exact hel ⟨rel, hrel, hcond.2⟩
    have hgnc := get_next_comp_eq hopp
    rw [hbp] at hgnc
    refine ⟨-1, -1, hgnc, ?_, ?_⟩
    · exact ⟨fun _ => hel, fun _ => rfl⟩
    · refine ⟨fun _ h2 => ?_, fun _ => rfl⟩
      obtain ⟨a, b, hab, ha, hb⟩ := h2
      exact hel ⟨a, ha⟩

/-- C6 (confirmed): when a first entity `id1` was selected, the second
slot of `get_next_comp` comes from `get_best_opp id1`, which — for a
reachable ranker — is the first-encountered eligible opponent (other than
`id1`, not avoided) of maximal `compute_score_var` evaluated on `id1`'s
model against the candidate's rating and rd (an opponent replaces the
incumbent only on strictly greater variance, so every earlier eligible
opponent has strictly smaller variance); the sentinel `-1` when no
opponent is eligible.  The last conjunct checks `compute_score_var`
against the spec formula `frac² · (rd² + opp_rd²)` with
`frac = p/(1+p)²`, `p = 10^((rating − opp_rating)/400)`. -/
theorem c6_second_slot_max_variance (s : LowVolRanker) (h : Reachable s)
    (id1 : ℕ) (h1 : s.get_best_player = (id1 : ℤ)) :
    ∃ q, s.players[id1]? = some q ∧
      (∀ pr : ℤ × ℤ, s.get_next_comp = some pr →
        s.get_best_opp s.get_best_player = some pr.2) ∧
      ((¬ ∃ c, oppEligible s id1 c) →
        s.get_best_opp (id1 : ℤ) = some (-1)) ∧
      (∀ c0, oppEligible s id1 c0 →
        ∃ (j : ℕ) (pj : Player), s.players[j]? = some pj ∧
          oppEligible s id1 j ∧ s.get_best_opp (id1 : ℤ) = some (j : ℤ) ∧
          (∀ i p, s.players[i]? = some p → oppEligible s id1 i →
            q.compute_score_var p.get_rating p.get_rd ≤
              q.compute_score_var pj.get_rating pj.get_rd) ∧
          (∀ i p, s.players[i]? = some p → oppEligible s id1 i → i < j →
            q.compute_score_var p.get_rating p.get_rd <
              q.compute_score_var pj.get_rating pj.get_rd)) ∧
      (∀ (q' : Player) (r d : ℝ), q'.compute_score_var r d =
        ((10 : ℝ) ^ ((q'.rating - r) / 400) /
            (1 + (10 : ℝ) ^ ((q'.rating - r) / 400)) ^ 2) ^ 2 *
          (q'.rd ^ 2 + d ^ 2)) := by
  have hinv := reachable_invRD h
  have hel : ∃ i, eligible s i := by
    by_contra hne
    rw [gbp_no_eligible s hne] at h1
    exact absurd h1 (by omega)
  obtain ⟨i0, h0⟩ := hel
  obtain ⟨j, pj, hj1, hj2, hj3, hj4, hj5⟩ := gbp_eligible s hinv h0
  have hjid : j = id1 := by
    rw [h1] at hj3
    exact_mod_cast hj3.symm
  have hq : s.players[id1]? = some pj := hjid ▸ hj1
  refine ⟨pj, hq, fun pr hpr => get_next_comp_snd hpr, ?_, ?_, ?_⟩
  · intro hno
    apply gbo_no_candidate
    intro rel hrel hcond
    exact hno ⟨rel, hrel, hcond.1, hcond.2⟩
  · intro c0 hc0
    exact gbo_candidate s hinv id1 pj hq hc0
  · intro q' r d
    unfold Player.compute_score_var
    dsimp only
    ring

/-- C7 (confirmed): on valid distinct ids, `receive_comp(id1, id2, score,
update=true)` leaves `id1`'s slot holding `p1.update(score, r2, d2)` and
`id2`'s slot holding `p2.update(1−score, r1, d1)` where `(r1, d1)` and
`(r2, d2)` are the two players' rating/rd from before either statement
ran: the second update statement does read `players_[id1]` after the first
statement executed, but `update` never writes `rating_`/`rd_`, so the
values used are exactly the pre-match ones and the two updates are
computed symmetrically from the same pre-match state. -/
theorem c7_updates_use_prematch_state (s : LowVolRanker) (id1 id2 : ℤ)
    (score : ℝ) (p1 p2 : Player)
    (h1 : listGet s.players id1 = some p1)
    (h2 : listGet s.players id2 = some p2)
    (hne : id1 ≠ id2) :
    ∃ s', s.receive_comp id1 id2 score true = some s' ∧
      listGet s'.players id1 =
        some (p1.update score p2.get_rating p2.get_rd) ∧
      listGet s'.players id2 =
        some (p2.update (1 - score) p1.get_rating p1.get_rd) := by
  obtain ⟨h1nn, h1get⟩ := listGet_some h1
  obtain ⟨h2nn, h2get⟩ := listGet_some h2
  have h1lt : id1.toNat < s.players.length := getElem?_lt h1get
  have h2lt : id2.toNat < s.players.length := getElem?_lt h2get
  have hstep1 : updStep s.players id1 id2 score =
      some (listSet s.players id1
        (p1.update score p2.get_rating p2.get_rd)) := by
    unfold updStep
    rw [h1, h2]
  have hps2_id2 : listGet (listSet s.players id1
      (p1.update score p2.get_rating p2.get_rd)) id2 = some p2 := by
    rw [listGet_set_ne h1nn hne]
    exact h2
  have hps2_id1 : listGet (listSet s.players id1
      (p1.update score p2.get_rating p2.get_rd)) id1 =
      some (p1.update score p2.get_rating p2.get_rd) :=
    listGet_set_self h1nn h1lt
  have hstep2 : updStep (listSet s.players id1
        (p1.update score p2.get_rating p2.get_rd)) id2 id1 (1 - score) =
      some (listSet (listSet s.players id1
          (p1.update score p2.get_rating p2.get_rd)) id2
        (p2.update (1 - score)
          (p1.update score p2.get_rating p2.get_rd).get_rating
          (p1.update score p2.get_rating p2.get_rd).get_rd)) := by
    unfold updStep
    rw [hps2_id2, hps2_id1]
  have h2lt' : id2.toNat < (listSet s.players id1
      (p1.update score p2.get_rating p2.get_rd)).length := by
    rw [listSet_length]; exact h2lt
  unfold LowVolRanker.receive_comp
  rw [if_pos rfl]
  dsimp only
  rw [hstep1]
  dsimp only
  rw [hstep2]
  dsimp only
  refine ⟨_, rfl, ?_, ?_⟩
  · by_cases hat : s.avoid_twice <;>
      simp only [hat, if_true, if_false, Bool.false_eq_true] <;>
      rw [listGet_set_ne h2nn (Ne.symm hne)] <;>
      exact hps2_id1
  · by_cases hat : s.avoid_twice <;>
      simp only [hat, if_true, if_false, Bool.false_eq_true] <;>
      exact listGet_set_self h2nn h2lt'

/-- Field changes of one successful public call: `avoid_twice_` is
constant; the ledger only grows at the end; only an update-bearing
`receive_comp` touches the avoid-set, and it sets it to `[id1, id2]`
exactly when `avoid_twice_` holds. -/
theorem applyOp_step {s s' : LowVolRanker} {op : Op}
    (h : applyOp s op = some s') :
    s'.avoid_twice = s.avoid_twice ∧
    (∃ t, s'.comps = s.comps ++ t) ∧
    ((∀ i j sc, op ≠ Op.receiveComp i j sc true) → s'.avoid = s.avoid) ∧
    (∀ i j sc u, op = Op.receiveComp i j sc u →
      s'.comps = s.comps ++ [Comp.mk i j sc]) ∧
    (∀ i j sc, op = Op.receiveComp i j sc true →
      (s.avoid_twice = true → s'.avoid = [i, j]) ∧
      (s.avoid_twice = false → s'.avoid = s.avoid)) := by
  cases op with
  | addPlayer r d =>
    simp only [applyOp] at h
    injection h with h'
    subst h'
    refine ⟨rfl, ⟨[], by simp [LowVolRanker.addPlayer]⟩, fun _ => rfl, ?_, ?_⟩
    · intro i j sc u hop; exact absurd hop (by simp)
    · intro i j sc hop; exact absurd hop (by simp)
  | receiveComp i j sc u =>
    simp only [applyOp, LowVolRanker.receive_comp] at h
    by_cases hu : u = true
    · rw [hu, if_pos rfl] at h
      cases h1 : updStep s.players i j sc with
      | none => rw [h1] at h; exact absurd h (by simp)
      | some ps2 =>
        rw [h1] at h
        dsimp only at h
        cases h2 : updStep ps2 j i (1 - sc) with
        | none => rw [h2] at h; exact absurd h (by simp)
        | some ps3 =>
          rw [h2] at h
          injection h with h'
          subst h'
          by_cases hat : s.avoid_twice = true
          · rw [if_pos hat]
            refine ⟨rfl, ⟨[Comp.mk i j sc], rfl⟩, ?_, ?_, ?_⟩
            · intro hno
              exact absurd (by rw [hu]) (hno i j sc)
            · intro i' j' sc' u' hop
              rw [hu] at hop
              cases hop
              rfl
            · intro i' j' sc' hop
              rw [hu] at hop
              cases hop
              exact ⟨fun _ => rfl,
                fun hf => absurd (hat.symm.trans hf) (by simp)⟩
          · rw [if_neg hat]
            refine ⟨rfl, ⟨[Comp.mk i j sc], rfl⟩, fun _ => rfl, ?_, ?_⟩
            · intro i' j' sc' u' hop
              rw [hu] at hop
              cases hop
              rfl
            · intro i' j' sc' hop
              rw [hu] at hop
              cases hop
              exact ⟨fun ht => absurd ht hat, fun _ => rfl⟩
    · have hu' : u = false := by simpa using hu
      rw [hu', if_neg (by simp)] at h
      injection h with h'
      subst h'
      refine ⟨rfl, ⟨[Comp.mk i j sc], rfl⟩, fun _ => rfl, ?_, ?_⟩
      · intro i' j' sc' u' hop
        rw [hu'] at hop
        cases hop
        rfl
      · intro i' j' sc' hop
        rw [hu'] at hop
        exact absurd hop (by simp)
  | adjustRatings =>
    simp only [applyOp, LowVolRanker.adjust_ratings] at h
    injection h with h'
    subst h'
    refine ⟨rfl, ⟨[], by simp⟩, fun _ => rfl, ?_, ?_⟩
    · intro i j sc u hop; exact absurd hop (by simp)
    · intro i j sc hop; exact absurd hop (by simp)
  | dumpRatings =>
    simp only [applyOp, LowVolRanker.dump_ratings] at h
    injection h with h'
    subst h'
    refine ⟨rfl, ⟨[], by simp⟩, fun _ => rfl, ?_, ?_⟩
    · intro i j sc u hop; exact absurd hop (by simp)
    · intro i j sc hop; exact absurd hop (by simp)

/-- A call sequence with no update-bearing `receive_comp` leaves `avoid_`
unchanged. -/
theorem exec_no_upd_avoid :
    ∀ (ops : List Op) (s s' : LowVolRanker),
      (∀ op ∈ ops, ∀ i j sc, op ≠ Op.receiveComp i j sc true) →
      exec s ops = some s' → s'.avoid = s.avoid := by
  intro ops
  induction ops with
  | nil =>
    intro s s' _ h
    simp only [exec] at h
    injection h with h'
    rw [← h']
  | cons op ops ih =>
    intro s s' hno h
    simp only [exec] at h
    cases hop : applyOp s op with
    | none => rw [hop] at h; exact absurd h (by simp)
    | some t =>
      rw [hop] at h
      have h1 : t.avoid = s.avoid :=
        (applyOp_step hop).2.2.1 (hno op (by simp))
      rw [ih t s' (fun o ho => hno o (by simp [ho])) h, h1]

/-- C8 (confirmed): starting from `LowVolRanker(avoid_twice = b)`, after
any successful call sequence: with `b = false` the avoid-set is empty;
with any `b`, if no update-bearing `receive_comp` occurred it is empty,
and after the most recent update-bearing `receive_comp(i, j, _, true)` it
is exactly `[i, j]` when `b = true` (empty when `b = false`); and no call
other than an update-bearing `receive_comp` ever changes the avoid-set. -/
theorem c8_avoid_set_policy (b : Bool) (ops : List Op) (s : LowVolRanker)
    (hexec : exec (LowVolRanker.init b) ops = some s) :
    (b = false → s.avoid = []) ∧
    ((∀ op ∈ ops, ∀ i j sc, op ≠ Op.receiveComp i j sc true) →
      s.avoid = []) ∧
    (∀ pre i j sc post, ops = pre ++ Op.receiveComp i j sc true :: post →
      (∀ op ∈ post, ∀ i' j' sc', op ≠ Op.receiveComp i' j' sc' true) →
      (b = true → s.avoid = [i, j]) ∧ (b = false → s.avoid = [])) ∧
    (∀ s1 op s2, applyOp s1 op = some s2 →
      (∀ i j sc, op ≠ Op.receiveComp i j sc true) →
      s2.avoid = s1.avoid) := by
  have hconstb : ∀ (l : List Op) (t t' : LowVolRanker), exec t l = some t' →
      t.avoid_twice = b → t'.avoid_twice = b := fun l t t' hl =>
    exec_inv (fun x => x.avoid_twice = b)
      (fun x op x' hx hP => by
        show x'.avoid_twice = b
        rw [(applyOp_step hx).1]; exact hP) l t t' hl
  have hfalse : ∀ (l : List Op) (t t' : LowVolRanker), exec t l = some t' →
      t.avoid = [] ∧ t.avoid_twice = false →
      t'.avoid = [] ∧ t'.avoid_twice = false := fun l t t' hl =>
    exec_inv (fun x => x.avoid = [] ∧ x.avoid_twice = false)
      (fun x op x' hx hP => by
        show x'.avoid = [] ∧ x'.avoid_twice = false
        constructor
        · rcases op with ⟨r, d⟩ | ⟨i, j, sc, u⟩ | - | -
          · rw [(applyOp_step hx).2.2.1 (fun _ _ _ => by simp), hP.1]
          · cases u with
            | true =>
              rw [((applyOp_step hx).2.2.2.2 i j sc rfl).2 hP.2, hP.1]
            | false =>
              rw [(applyOp_step hx).2.2.1 (fun _ _ _ => by simp), hP.1]
          · rw [(applyOp_step hx).2.2.1 (fun _ _ _ => by simp), hP.1]
          · rw [(applyOp_step hx).2.2.1 (fun _ _ _ => by simp), hP.1]
        · rw [(applyOp_step hx).1]; exact hP.2) l t t' hl
  refine ⟨?_, ?_, ?_, ?_⟩
  · intro hb
    exact (hfalse ops _ s hexec (by rw [hb]; exact ⟨rfl, rfl⟩)).1
  · intro hno
    exact exec_no_upd_avoid ops _ s hno hexec
  · intro pre i j sc post hops hpost
    subst hops
    obtain ⟨sa, hpre, hrest⟩ := exec_append_split hexec
    simp only [exec] at hrest
    cases hop : applyOp sa (Op.receiveComp i j sc true) with
    | none => rw [hop] at hrest; exact absurd hrest (by simp)
    | some sb =>
      rw [hop] at hrest
      have hsb := exec_no_upd_avoid post sb s hpost hrest
      constructor
      · intro hb
        have hat : sa.avoid_twice = true :=
          (hconstb pre _ sa hpre rfl).trans hb
        rw [hsb, ((applyOp_step hop).2.2.2.2 i j sc rfl).1 hat]
      · intro hb
        have hsa := hfalse pre _ sa hpre (by rw [hb]; exact ⟨rfl, rfl⟩)
        rw [hsb, ((applyOp_step hop).2.2.2.2 i j sc rfl).2 hsa.2, hsa.1]
  · intro s1 op s2 h hno
    exact (applyOp_step h).2.2.1 hno

/-- C9 (confirmed): every `receive_comp` call — with either value of the
`update` flag — appends exactly the one entry `(id1, id2, score)` at the
end of `comps_`, and every public call leaves the existing ledger entries
in place, only ever appending (append-only ledger). -/
theorem c9_ledger_append_only :
    (∀ (s : LowVolRanker) (i j : ℤ) (sc : ℝ) (u : Bool)
        (s' : LowVolRanker), s.receive_comp i j sc u = some s' →
        s'.comps = s.comps ++ [Comp.mk i j sc]) ∧
    (∀ (s : LowVolRanker) (op : Op) (s' : LowVolRanker),
        applyOp s op = some s' → ∃ t, s'.comps = s.comps ++ t) := by
  constructor
  · intro s i j sc u s' h
    exact (applyOp_step
      (show applyOp s (Op.receiveComp i j sc u) = some s' from h)).2.2.2.1
      i j sc u rfl
  · intro s op s' h
    exact (applyOp_step h).2.1

/-- The value returned to the caller by the C++ `addPlayer`, whose
declared return type is `void`. -/
def addPlayerRet (s : LowVolRanker) (rating rd : ℝ) : Unit := ()

/-- C10 counterexample: `addPlayer` does not return the new entity's
stable id.  Its return type is `void` (modelled `Unit`), so the value
returned for the first insertion (prior size `0`) and for the second
insertion (prior size `1`) is the same, while the claimed stable ids
differ — the return value cannot be the id. -/
theorem c10_counterexample_void_return :
    addPlayerRet (LowVolRanker.init true) 0 350 =
      addPlayerRet ((LowVolRanker.init true).addPlayer 0 350) 0 350 ∧
    (LowVolRanker.init true).players.length ≠
      ((LowVolRanker.init true).addPlayer 0 350).players.length := by
  exact ⟨rfl, by simp [LowVolRanker.addPlayer, LowVolRanker.init]⟩

/-- C10 amended (proved): `addPlayer` appends the new entity at index
equal to the collection size immediately before the insertion (0 for the
first entity, 1 for the second, and so on) — that index is the entity's
stable id — and leaves all existing slots unchanged; but `addPlayer`
itself returns void, not the id. -/
theorem c10_stable_id_is_prior_size (s : LowVolRanker) (r d : ℝ) :
    (s.addPlayer r d).players.length = s.players.length + 1 ∧
    (s.addPlayer r d).players[s.players.length]? =
      some (Player.make r d 350) ∧
    ∀ i : ℕ, i < s.players.length →
      (s.addPlayer r d).players[i]? = s.players[i]? := by
  refine ⟨by simp [LowVolRanker.addPlayer], ?_, ?_⟩
  · unfold LowVolRanker.addPlayer
    dsimp only
    exact List.getElem?_concat_length _ _
  · intro i hi
    unfold LowVolRanker.addPlayer
    dsimp only
    exact List.getElem?_append_left hi

/-- Witness for C4 at the reachable two-player state
`init(true); addPlayer(0,350); addPlayer(0,350)`. -/
theorem c4_witness :
    Reachable (((LowVolRanker.init true).addPlayer 0 350).addPlayer 0 350) ∧
    ∃ i1 i2 : ℤ,
      (((LowVolRanker.init true).addPlayer 0 350).addPlayer
          0 350).get_next_comp = some (i1, i2) ∧
      (i1 = -1 ↔ ¬ ∃ i, eligible
        (((LowVolRanker.init true).addPlayer 0 350).addPlayer 0 350) i) ∧
      (i2 = -1 ↔ ¬ ∃ i j, i ≠ j ∧
        eligible
          (((LowVolRanker.init true).addPlayer 0 350).addPlayer 0 350) i ∧
        eligible
          (((LowVolRanker.init true).addPlayer 0 350).addPlayer 0 350) j) :=
  have hreach :
      Reachable (((LowVolRanker.init true).addPlayer 0 350).addPlayer 0 350) :=
    ⟨true, [Op.addPlayer 0 350, Op.addPlayer 0 350], rfl⟩
  ⟨hreach, c4_get_next_comp_total _ hreach⟩

/-- Witness for C5 at the reachable one-player state
`init(true); addPlayer(0,350)`. -/
theorem c5_witness :
    Reachable ((LowVolRanker.init true).addPlayer 0 350) ∧
    ((∀ pr : ℤ × ℤ,
        ((LowVolRanker.init true).addPlayer 0 350).get_next_comp = some pr →
        pr.1 = ((LowVolRanker.init true).addPlayer 0 350).get_best_player) ∧
      ((¬ ∃ i, eligible ((LowVolRanker.init true).addPlayer 0 350) i) →
        ((LowVolRanker.init true).addPlayer 0 350).get_best_player = -1) ∧
      (∀ i0, eligible ((LowVolRanker.init true).addPlayer 0 350) i0 →
        ∃ (j : ℕ) (pj : Player),
          ((LowVolRanker.init true).addPlayer 0 350).players[j]? = some pj ∧
          eligible ((LowVolRanker.init true).addPlayer 0 350) j ∧
          ((LowVolRanker.init true).addPlayer 0 350).get_best_player =
            (j : ℤ) ∧
          (∀ i p,
            ((LowVolRanker.init true).addPlayer 0 350).players[i]? = some p →
            eligible ((LowVolRanker.init true).addPlayer 0 350) i →
            p.get_rd ≤ pj.get_rd) ∧
          (∀ i p,
            ((LowVolRanker.init true).addPlayer 0 350).players[i]? = some p →
            eligible ((LowVolRanker.init true).addPlayer 0 350) i → i < j →
            p.get_rd < pj.get_rd))) :=
  have hreach : Reachable ((LowVolRanker.init true).addPlayer 0 350) :=
    ⟨true, [Op.addPlayer 0 350], rfl⟩
  ⟨hreach, c5_first_slot_highest_rd _ hreach⟩

/-- Witness for C6 at the reachable one-player state
`init(true); addPlayer(0,350)`, whose first pick evaluates to index 0. -/
theorem c6_witness :
    Reachable ((LowVolRanker.init true).addPlayer 0 350) ∧
    ((LowVolRanker.init true).addPlayer 0 350).get_best_player =
      ((0 : ℕ) : ℤ) ∧
    ∃ q, ((LowVolRanker.init true).addPlayer 0 350).players[(0 : ℕ)]? =
        some q ∧
      (∀ pr : ℤ × ℤ,
        ((LowVolRanker.init true).addPlayer 0 350).get_next_comp = some pr →
        ((LowVolRanker.init true).addPlayer 0 350).get_best_opp
          ((LowVolRanker.init true).addPlayer 0 350).get_best_player =
          some pr.2) ∧
      ((¬ ∃ c, oppEligible ((LowVolRanker.init true).addPlayer 0 350) 0 c) →
        ((LowVolRanker.init true).addPlayer 0 350).get_best_opp
          ((0 : ℕ) : ℤ) = some (-1)) ∧
      (∀ c0, oppEligible ((LowVolRanker.init true).addPlayer 0 350) 0 c0 →
        ∃ (j : ℕ) (pj : Player),
          ((LowVolRanker.init true).addPlayer 0 350).players[j]? = some pj ∧
          oppEligible ((LowVolRanker.init true).addPlayer 0 350) 0 j ∧
          ((LowVolRanker.init true).addPlayer 0 350).get_best_opp
            ((0 : ℕ) : ℤ) = some (j : ℤ) ∧
          (∀ i p,
            ((LowVolRanker.init true).addPlayer 0 350).players[i]? = some p →
            oppEligible ((LowVolRanker.init true).addPlayer 0 350) 0 i →
            q.compute_score_var p.get_rating p.get_rd ≤
              q.compute_score_var pj.get_rating pj.get_rd) ∧
          (∀ i p,
            ((LowVolRanker.init true).addPlayer 0 350).players[i]? = some p →
            oppEligible ((LowVolRanker.init true).addPlayer 0 350) 0 i →
            i < j →
            q.compute_score_var p.get_rating p.get_rd <
              q.compute_score_var pj.get_rating pj.get_rd)) ∧
      (∀ (q' : Player) (r d : ℝ), q'.compute_score_var r d =
        ((10 : ℝ) ^ ((q'.rating - r) / 400) /
            (1 + (10 : ℝ) ^ ((q'.rating - r) / 400)) ^ 2) ^ 2 *
          (q'.rd ^ 2 + d ^ 2)) :=
  have hreach : Reachable ((LowVolRanker.init true).addPlayer 0 350) :=
    ⟨true, [Op.addPlayer 0 350], rfl⟩
  have h1 : ((LowVolRanker.init true).addPlayer 0 350).get_best_player =
      ((0 : ℕ) : ℤ) := by
    unfold LowVolRanker.get_best_player LowVolRanker.addPlayer
      LowVolRanker.init
    norm_num [bestPlayerAux, Player.get_rd, Player.make]
  ⟨hreach, h1, c6_second_slot_max_variance _ hreach 0 h1⟩

/-- Witness for C7 at the two-player state
`init(true); addPlayer(0,350); addPlayer(0,350)` with ids 0 ≠ 1 and
score 1. -/
theorem c7_witness :
    ∃ s', (((LowVolRanker.init true).addPlayer 0 350).addPlayer
        0 350).receive_comp 0 1 1 true = some s' ∧
      listGet s'.players 0 = some ((Player.make 0 350 350).update 1
        (Player.make 0 350 350).get_rating
        (Player.make 0 350 350).get_rd) ∧
      listGet s'.players 1 = some ((Player.make 0 350 350).update (1 - 1)
        (Player.make 0 350 350).get_rating
        (Player.make 0 350 350).get_rd) :=
  c7_updates_use_prematch_state
    (((LowVolRanker.init true).addPlayer 0 350).addPlayer 0 350)
    0 1 1 (Player.make 0 350 350) (Player.make 0 350 350)
    rfl rfl (by decide)

/-- Witness for C8 with `b = true` and the single-call trace
`[addPlayer(0, 350)]`. -/
theorem c8_witness :
    ((true = false →
        ((LowVolRanker.init true).addPlayer 0 350).avoid = []) ∧
      ((∀ op ∈ [Op.addPlayer 0 350], ∀ i j sc,
          op ≠ Op.receiveComp i j sc true) →
        ((LowVolRanker.init true).addPlayer 0 350).avoid = []) ∧
      (∀ pre i j sc post,
        [Op.addPlayer 0 350] = pre ++ Op.receiveComp i j sc true :: post →
        (∀ op ∈ post, ∀ i' j' sc', op ≠ Op.receiveComp i' j' sc' true) →
        (true = true →
          ((LowVolRanker.init true).addPlayer 0 350).avoid = [i, j]) ∧
        (true = false →
          ((LowVolRanker.init true).addPlayer 0 350).avoid = [])) ∧
      (∀ s1 op s2, applyOp s1 op = some s2 →
        (∀ i j sc, op ≠ Op.receiveComp i j sc true) →
        s2.avoid = s1.avoid)) :=
  c8_avoid_set_policy true [Op.addPlayer 0 350]
    ((LowVolRanker.init true).addPlayer 0 350) rfl

/-- Witness for C9: `receive_comp(0, 1, 1/2, update=false)` on a fresh
ranker appends exactly the one ledger entry. -/
theorem c9_witness :
    ∃ s', (LowVolRanker.init true).receive_comp 0 1 (1 / 2) false =
        some s' ∧
      s'.comps = (LowVolRanker.init true).comps ++ [Comp.mk 0 1 (1 / 2)] :=
  ⟨_, rfl, c9_ledger_append_only.1 (LowVolRanker.init true) 0 1 (1 / 2)
    false _ rfl⟩

/-- Witness for the amended C10 at `init(true); addPlayer(1,2)` followed
by `addPlayer(5,7)`: the second entity lands at index 1 (prior size) and
slot 0 is untouched. -/
theorem c10_witness :
    (((LowVolRanker.init true).addPlayer 1 2).addPlayer 5 7).players.length =
      ((LowVolRanker.init true).addPlayer 1 2).players.length + 1 ∧
    (((LowVolRanker.init true).addPlayer 1 2).addPlayer 5 7).players[
        ((LowVolRanker.init true).addPlayer 1 2).players.length]? =
      some (Player.make 5 7 350) ∧
    (((LowVolRanker.init true).addPlayer 1 2).addPlayer 5 7).players[
        (0 : ℕ)]? =
      ((LowVolRanker.init true).addPlayer 1 2).players[(0 : ℕ)]? :=
  ⟨(c10_stable_id_is_prior_size ((LowVolRanker.init true).addPlayer 1 2)
      5 7).1,
   (c10_stable_id_is_prior_size ((LowVolRanker.init true).addPlayer 1 2)
      5 7).2.1,
   (c10_stable_id_is_prior_size ((LowVolRanker.init true).addPlayer 1 2)
      5 7).2.2 0
     (by norm_num [LowVolRanker.addPlayer, LowVolRanker.init])⟩

end Ranker
